import Mathlib

/-!
Shallow embedding of the nyc-bike-analysis data pipeline.

Sources embedded:
* src/data/make_dataset.py      — station registry builder and trip normalizer
* src/data/enrich_trips.py      — weather / day-night / weekend enrichment
* src/models/create_signatures.py — per-station hourly demand signatures

Conventions used throughout:
* timestamps are naive local time, modelled as seconds since an epoch (ℕ);
* nullable cells (pandas NaN / NaT) are modelled as Option;
* numeric station ids (floats after pd.to_numeric) are modelled as ℚ;
* pandas comparison semantics with NaN (always False) are modelled explicitly.
-/

/-- Pandas Series.fillna at a single cell: keep the present value, otherwise
use the fill value (which may itself be null). -/
def fillna {α : Type} (cur fill : Option α) : Option α :=
  match cur with
  | some v => some v
  | none => fill

/-- Pandas elementwise equality of two nullable numeric cells: any comparison
involving NaN is False. -/
def nanEq (a b : Option ℚ) : Bool :=
  match a, b with
  | some x, some y => decide (x = y)
  | _, _ => false

/-! ### Station registry builder (make_dataset.py, phase 1) -/

/-- One station observation extracted from a trip endpoint.  Rows whose id
failed pd.to_numeric have already been dropped (dropna(subset=['station_id'])),
so the id is a present numeric; name and coordinates may still be null. -/
structure StationObs where
  station_id : ℚ
  station_name : Option String
  lat : Option ℚ
  lng : Option ℚ
deriving DecidableEq, Repr

/-- Comparison used by sort_values('station_name'): names in ascending order,
null names last (pandas default na_position='last'). -/
def nameKeyLe : Option String → Option String → Bool
  | _, none => true
  | none, some _ => false
  | some a, some b => decide (a ≤ b)

/-- The sort relation on observations induced by their (nullable) names. -/
def nameLe (a b : StationObs) : Prop :=
  nameKeyLe a.station_name b.station_name = true

instance : DecidableRel nameLe := fun a b =>
  Bool.decEq (nameKeyLe a.station_name b.station_name) true

instance : IsTotal StationObs nameLe := by
  constructor
  rintro ⟨ia, na, la1, lg1⟩ ⟨ib, nb, la2, lg2⟩
  unfold nameLe
  cases na <;> cases nb <;> simp [nameKeyLe]
  exact le_total _ _

instance : IsTrans StationObs nameLe := by
  constructor
  rintro ⟨ia, na, la1, lg1⟩ ⟨ib, nb, la2, lg2⟩ ⟨ic, nc, la3, lg3⟩ hab hbc
  unfold nameLe at *
  cases na <;> cases nb <;> cases nc <;> simp_all [nameKeyLe]
  exact le_trans hab hbc

/-- combined_stations.sort_values('station_name'): deterministic ascending sort
by name, null names last. -/
def sort_by_name (l : List StationObs) : List StationObs :=
  List.insertionSort nameLe l

/-- Pandas drop_duplicates(subset=['station_id'], keep='first'): keep a row
exactly when its id has not been seen before it. -/
def drop_duplicates_by_id : List StationObs → List ℚ → List StationObs
  | [], _ => []
  | r :: rs, seen =>
    if r.station_id ∈ seen then drop_duplicates_by_id rs seen
    else r :: drop_duplicates_by_id rs (r.station_id :: seen)

/-- Per-source deduplication (make_dataset.py line 46):
sort_values('station_name').drop_duplicates(subset=['station_id'], keep='first'). -/
def per_source_stations (l : List StationObs) : List StationObs :=
  drop_duplicates_by_id (sort_by_name l) []

/-- First occurrence of each id, preserving order of first appearance. -/
def dedupFirst : List ℚ → List ℚ → List ℚ
  | [], _ => []
  | x :: xs, seen =>
    if x ∈ seen then dedupFirst xs seen else x :: dedupFirst xs (x :: seen)

/-- Pandas df_stations.groupby('station_id', as_index=False).first()
(make_dataset.py line 55): group keys sorted ascending; within each group every
column independently takes its first non-null value in row order (GroupBy.first
skips NA entries per column). -/
def groupby_first (l : List StationObs) : List StationObs :=
  (List.insertionSort (fun a b : ℚ => a ≤ b) (dedupFirst (l.map (·.station_id)) [])).map
    (fun i =>
      { station_id := i
        station_name := (l.filter (fun r => decide (r.station_id = i))).findSome? (·.station_name)
        lat := (l.filter (fun r => decide (r.station_id = i))).findSome? (·.lat)
        lng := (l.filter (fun r => decide (r.station_id = i))).findSome? (·.lng) })

/-- Modelled from the spec words for the global pass: grouping by id and taking
the first whole record in accumulation order (so name, lat and lng all come from
that same first record).  Used only to compare against groupby_first. -/
def groupby_firstRecord (l : List StationObs) : List StationObs :=
  (List.insertionSort (fun a b : ℚ => a ≤ b) (dedupFirst (l.map (·.station_id)) [])).filterMap
    (fun i => l.find? (fun r => decide (r.station_id = i)))

/-- Registry lookup map for names (make_dataset.py line 62):
set_index('station_id')['station_name'].to_dict(), missing keys and NaN values
both read back as null. -/
def map_names (l : List StationObs) (i : ℚ) : Option String :=
  ((groupby_first l).find? (fun r => decide (r.station_id = i))).bind (·.station_name)

/-- Registry lookup map for latitudes (make_dataset.py line 63). -/
def map_lat (l : List StationObs) (i : ℚ) : Option ℚ :=
  ((groupby_first l).find? (fun r => decide (r.station_id = i))).bind (·.lat)

/-- Registry lookup map for longitudes (make_dataset.py line 64). -/
def map_lng (l : List StationObs) (i : ℚ) : Option ℚ :=
  ((groupby_first l).find? (fun r => decide (r.station_id = i))).bind (·.lng)

/-! ### Trip normalizer (make_dataset.py, phase 2) -/

/-- One raw trip row after the type-casting step: timestamps parsed with
errors='coerce' (null on failure), station ids through pd.to_numeric with
errors='coerce'. -/
structure RawTrip where
  ride_id : String
  started_at : Option ℕ
  ended_at : Option ℕ
  start_station_id : Option ℚ
  end_station_id : Option ℚ
  start_station_name : Option String
  start_lat : Option ℚ
  start_lng : Option ℚ
  end_station_name : Option String
  end_lat : Option ℚ
  end_lng : Option ℚ
deriving DecidableEq, Repr

/-- trip_duration = (ended_at − started_at).dt.total_seconds(): null when either
timestamp is NaT. -/
def trip_duration (r : RawTrip) : Option ℤ :=
  match r.ended_at, r.started_at with
  | some e, some s => some ((e : ℤ) - (s : ℤ))
  | _, _ => none

/-- dropna(subset=['started_at', 'ended_at']) row predicate. -/
def dates_ok (r : RawTrip) : Bool :=
  r.started_at.isSome && r.ended_at.isSome

/-- invalid_mask (make_dataset.py lines 117-121):
(trip_duration < 180) | (trip_duration > 10800) |
(start_station_id == end_station_id), with pandas NaN comparison semantics
(a comparison against NaN is False). -/
def invalid_mask (r : RawTrip) : Bool :=
  (match trip_duration r with
   | some d => decide (d < 180)
   | none => false) ||
  (match trip_duration r with
   | some d => decide (d > 10800)
   | none => false) ||
  nanEq r.start_station_id r.end_station_id

/-- Steps 113-126 of make_dataset.py: drop corrupted dates, then keep only the
rows not caught by invalid_mask. -/
def validity_filter (l : List RawTrip) : List RawTrip :=
  (l.filter dates_ok).filter (fun r => !invalid_mask r)

/-- Imputation step (make_dataset.py lines 133-139): each of the six station
attribute cells is filled, when null, with the registry map value looked up by
the corresponding station id (a null id maps to a null fill value). -/
def impute (mn : ℚ → Option String) (mla mlo : ℚ → Option ℚ) (r : RawTrip) : RawTrip :=
  { r with
    start_station_name := fillna r.start_station_name (r.start_station_id.bind mn)
    start_lat := fillna r.start_lat (r.start_station_id.bind mla)
    start_lng := fillna r.start_lng (r.start_station_id.bind mlo)
    end_station_name := fillna r.end_station_name (r.end_station_id.bind mn)
    end_lat := fillna r.end_lat (r.end_station_id.bind mla)
    end_lng := fillna r.end_lng (r.end_station_id.bind mlo) }

/-- dropna(subset=['start_station_id', 'end_station_id']) (line 143). -/
def ids_ok (r : RawTrip) : Bool :=
  r.start_station_id.isSome && r.end_station_id.isSome

/-- The whole per-file cleaning pipeline of phase 2: validity filtering, then
imputation, then dropping rows with irrecoverable ids. -/
def process_trips (mn : ℚ → Option String) (mla mlo : ℚ → Option ℚ)
    (l : List RawTrip) : List RawTrip :=
  ((validity_filter l).map (impute mn mla mlo)).filter ids_ok

/-- All six nullable station attribute cells of a row are present. -/
def station_attrs_present (r : RawTrip) : Prop :=
  r.start_station_name.isSome ∧ r.start_lat.isSome ∧ r.start_lng.isSome ∧
  r.end_station_name.isSome ∧ r.end_lat.isSome ∧ r.end_lng.isSome

/-! ### Temporal enrichment (enrich_trips.py) -/

/-- Pandas Series.dt.round('h') on a timestamp measured in seconds: round to
the nearest multiple of 3600; an exact half-hour tie is resolved to the even
multiple (pandas rounds half to even). -/
def round_h (t : ℕ) : ℕ :=
  if t % 3600 < 1800 then 3600 * (t / 3600)
  else if 1800 < t % 3600 then 3600 * (t / 3600 + 1)
  else if t / 3600 % 2 = 0 then 3600 * (t / 3600) else 3600 * (t / 3600 + 1)

/-- dt.date as a day index: the calendar date a timestamp falls on. -/
def date_of (t : ℕ) : ℕ := t / 86400

/-- dt.hour: hour of day of a timestamp. -/
def hour_of (t : ℕ) : ℕ := t / 3600 % 24

/-- dt.dayofweek: Monday = 0 … Sunday = 6 (day 0 of the epoch is a Thursday,
index 3). -/
def dayofweek_of (t : ℕ) : ℕ := (t / 86400 + 3) % 7

/-- is_weekend = started_at.dt.dayofweek.isin([5, 6]).astype(int). -/
def is_weekend_int (t : ℕ) : ℕ :=
  if dayofweek_of t = 5 ∨ dayofweek_of t = 6 then 1 else 0

/-- One hourly weather observation row (the five measured fields). -/
structure WeatherRow where
  temperature_c : ℚ
  precipitation_mm : ℚ
  wind_speed_kmh : ℚ
  relative_humidity : ℚ
  cloud_cover : ℚ
deriving DecidableEq, Repr

/-- The cleaned-trip columns the enrichment script works with: it drops the
station name and coordinate columns (cols_to_drop) right after loading, and
the remaining pass-through columns are elided here. -/
structure CleanTrip where
  ride_id : String
  started_at : ℕ
  start_station_id : ℚ
  end_station_id : ℚ
deriving DecidableEq, Repr

/-- A trip after the weather merge: null weather when its rounded hour had no
observation. -/
structure TripW where
  trip : CleanTrip
  weather : Option WeatherRow
deriving DecidableEq, Repr

/-- A trip after the sun merge: null sunrise and sunset when its date had no
SolarDay row. -/
structure TripWS where
  trip : CleanTrip
  weather : Option WeatherRow
  sunrise : Option ℕ
  sunset : Option ℕ
deriving DecidableEq, Repr

/-- The persisted enriched row (sunrise, sunset and the temporary join keys
are dropped before saving). -/
structure EnrichedTrip where
  trip : CleanTrip
  weather : Option WeatherRow
  is_day : ℕ
  is_weekend : ℕ
deriving DecidableEq, Repr

/-- The weather rows whose key equals a trip's rounded start hour. -/
def weather_matches (wt : List (ℕ × WeatherRow)) (tr : CleanTrip) : List (ℕ × WeatherRow) :=
  wt.filter (fun p => decide (p.1 = round_h tr.started_at))

/-- merge(df_weather, left_on='temp_time', right_index=True, how='left')
(enrich_trips.py lines 132-134): temp_time = started_at rounded to the nearest
hour; every right row whose key matches is emitted, and a trip with no match is
emitted once with null weather. -/
def merge_weather (trips : List CleanTrip) (wt : List (ℕ × WeatherRow)) : List TripW :=
  trips.flatMap (fun tr =>
    if (weather_matches wt tr).isEmpty then [⟨tr, none⟩]
    else (weather_matches wt tr).map (fun p => ⟨tr, some p.2⟩))

/-- The solar rows whose date key equals a trip's start date. -/
def sun_matches (sun : List (ℕ × ℕ × ℕ)) (row : TripW) : List (ℕ × ℕ × ℕ) :=
  sun.filter (fun p => decide (p.1 = date_of row.trip.started_at))

/-- merge(df_sun, left_on='temp_date', right_on='date_key', how='left')
(enrich_trips.py lines 138-140): keyed by the trip's calendar date. -/
def merge_sun (rows : List TripW) (sun : List (ℕ × ℕ × ℕ)) : List TripWS :=
  rows.flatMap (fun row =>
    if (sun_matches sun row).isEmpty then [⟨row.trip, row.weather, none, none⟩]
    else (sun_matches sun row).map (fun p => ⟨row.trip, row.weather, some p.2.1, some p.2.2⟩))

/-- is_day (enrich_trips.py lines 145-146):
((started_at >= sunrise) & (started_at <= sunset)).astype(int), where a
comparison against a missing (NaT) bound is False. -/
def is_day_int (started : ℕ) (sunrise sunset : Option ℕ) : ℕ :=
  match sunrise, sunset with
  | some r, some s => if r ≤ started ∧ started ≤ s then 1 else 0
  | _, _ => 0

/-- Final per-row step of the month loop: compute is_day and is_weekend and
drop the auxiliary sunrise/sunset columns. -/
def add_flags (rows : List TripWS) : List EnrichedTrip :=
  rows.map (fun m =>
    ⟨m.trip, m.weather, is_day_int m.trip.started_at m.sunrise m.sunset,
      is_weekend_int m.trip.started_at⟩)

/-- The whole enrichment pipeline for one month of cleaned trips. -/
def enrich_month (trips : List CleanTrip) (wt : List (ℕ × WeatherRow))
    (sun : List (ℕ × ℕ × ℕ)) : List EnrichedTrip :=
  add_flags (merge_sun (merge_weather trips wt) sun)

/-! ### Demand signatures (create_signatures.py) -/

/-- The columns the signature script loads from the enriched parquet files:
start_station_id (nullable), started_at, and the stored is_weekend flag. -/
structure SigRow where
  start_station_id : Option ℚ
  started_at : ℕ
  is_weekend : ℕ
deriving DecidableEq, Repr

/-- Rows of one weekday/weekend partition: dropna(subset=['start_station_id'])
followed by the is_weekend filter (create_signatures.py lines 24, 30). -/
def sig_subset (rows : List SigRow) (flag : ℕ) : List SigRow :=
  (rows.filter (fun r => r.start_station_id.isSome)).filter
    (fun r => decide (r.is_weekend = flag))

/-- Number of trips of station s in hour h within a partition
(groupby(['start_station_id', 'hour']).size(), with absent combinations read
back as 0 by the pivot's fillna(0)). -/
def count_for (sub : List SigRow) (s : ℚ) (h : ℕ) : ℕ :=
  ((sub.filter (fun r => decide (r.start_station_id = some s))).filter
    (fun r => decide (hour_of r.started_at = h))).length

/-- The foldl-based minimum of a list of rationals (0 for the empty list,
which never arises: every pivot row has 24 entries). -/
def list_min : List ℚ → ℚ
  | [] => 0
  | x :: xs => xs.foldl min x

/-- The foldl-based maximum of a list of rationals. -/
def list_max : List ℚ → ℚ
  | [] => 0
  | x :: xs => xs.foldl max x

/-- MinMaxScaler().fit_transform applied to one station's 24-hour vector
(the scaler is fit on pivot.T, so each station column is scaled
independently): x ↦ (x − min) / (max − min), and a zero range is replaced by 1
(sklearn's handle_zeros_in_scale), which sends a constant vector to zeros. -/
def minmax_normalize (xs : List ℚ) : List ℚ :=
  let mn := list_min xs
  let mx := list_max xs
  xs.map (fun x => if mx = mn then x - mn else (x - mn) / (mx - mn))

/-- The stations of one partition, in the sorted order the pivot index uses. -/
def sig_stations (sub : List SigRow) : List ℚ :=
  List.insertionSort (fun a b : ℚ => a ≤ b)
    (dedupFirst (sub.filterMap (·.start_station_id)) [])

/-- One partition of generate_signatures (create_signatures.py lines 26-54):
count trips per station and hour, pivot into a 24-entry row per station with
missing hours filled as 0, and min-max normalize each row independently. -/
def generate_signatures (rows : List SigRow) (flag : ℕ) : List (ℚ × List ℚ) :=
  (sig_stations (sig_subset rows flag)).map (fun s =>
    (s, minmax_normalize ((List.range 24).map
      (fun h => ((count_for (sig_subset rows flag) s h : ℚ))))))

/-! ### Concrete sample data used by witnesses and counterexamples -/

/-- A raw trip starting at time 0 with the given end time (so its duration in
seconds equals dur), distinct station ids, and no station attributes. -/
def sampleTrip (dur : ℕ) : RawTrip :=
  ⟨"r", some 0, some dur, some 1, some 2, none, none, none, none, none, none⟩

/-- A raw trip with every station attribute present. -/
def rFull : RawTrip :=
  ⟨"w", some 0, some 400, some 1, some 2, some "S", some 3, some 4, some "E",
    some 5, some 6⟩

/-- Station id 1 observed with a null name. -/
def obsA : StationObs := ⟨1, none, some 10, some 20⟩

/-- Station id 1 observed again, later, with a name. -/
def obsB : StationObs := ⟨1, some "A", some 30, some 40⟩

/-- Station id 1 observed with name "A": under the name order it precedes any
null-named observation of the same station. -/
def obsNameA : StationObs := ⟨1, some "A", some 3, some 4⟩

/-- A cleaned trip starting exactly at the sample sunrise below. -/
def tripAtSunrise : CleanTrip := ⟨"t", 21600, 1, 2⟩

/-- Solar table for the epoch day: sunrise 06:00, sunset 21:00. -/
def sunSample : List (ℕ × ℕ × ℕ) := [(0, 21600, 75600)]

/-- A one-row weather table at the 06:00 hour of the epoch day. -/
def weatherSample : List (ℕ × WeatherRow) := [(21600, ⟨10, 0, 5, 50, 25⟩)]

/-- A signature input row for station 1 at hour 8 on a weekday. -/
def sigRow8 : SigRow := ⟨some 1, 28800, 0⟩

/-- Signature input with one trip of station 1 in every hour of the day
(a constant 24-hour count vector). -/
def sigRowsConst : List SigRow :=
  (List.range 24).map (fun h => ⟨some 1, 3600 * h, 0⟩)

/-! ### Helper lemmas -/

theorem fillna_fillna {α : Type} (c f : Option α) : fillna (fillna c f) f = fillna c f := by
  cases c <;> cases f <;> rfl

theorem dates_ok_duration {r : RawTrip} (h : dates_ok r = true) :
    ∃ d, trip_duration r = some d := by
  unfold dates_ok at h
  unfold trip_duration
  cases hs : r.started_at <;> cases he : r.ended_at <;> simp_all

theorem invalid_mask_false_iff {r : RawTrip} {d : ℤ} (h : trip_duration r = some d) :
    invalid_mask r = false ↔
      (180 ≤ d ∧ d ≤ 10800 ∧ nanEq r.start_station_id r.end_station_id = false) := by
  unfold invalid_mask
  rw [h]
  simp [not_lt, and_assoc]

/-! ### Claim C1 -/

/-- C1 counterexample: a trip whose duration is exactly 10800 seconds survives
the validity filter (invalid_mask uses strict comparisons, so the boundary is
kept), contradicting the claim that it is rejected. -/
theorem c1_counterexample :
    trip_duration (sampleTrip 10800) = some 10800 ∧
    validity_filter [sampleTrip 10800] = [sampleTrip 10800] := by
  constructor <;> rfl

/-- C1 (amended): a raw trip row survives the validity filter iff its
timestamps parsed, its duration d satisfies the inclusive bounds
180 ≤ d ≤ 10800, and its start and end station ids are not equal (under
pandas NaN-equality, which is false when either id is null). -/
theorem c1_validity_filter_inclusive_bounds (l : List RawTrip) (r : RawTrip) :
    r ∈ validity_filter l ↔
      (r ∈ l ∧ dates_ok r = true ∧
        (∃ d, trip_duration r = some d ∧ 180 ≤ d ∧ d ≤ 10800) ∧
        nanEq r.start_station_id r.end_station_id = false) := by
  unfold validity_filter
  rw [List.mem_filter, List.mem_filter]
  constructor
  · rintro ⟨⟨hl, hd⟩, hm⟩
    obtain ⟨d, hdur⟩ := dates_ok_duration hd
    rw [Bool.not_eq_true'] at hm
    obtain ⟨h1, h2, h3⟩ := (invalid_mask_false_iff hdur).mp hm
    exact ⟨hl, hd, ⟨d, hdur, h1, h2⟩, h3⟩
  · rintro ⟨hl, hd, ⟨d, hdur, h1, h2⟩, h3⟩
    refine ⟨⟨hl, hd⟩, ?_⟩
    rw [Bool.not_eq_true']
    exact (invalid_mask_false_iff hdur).mpr ⟨h1, h2, h3⟩

/-- Witness for C1: a 10799-second trip is accepted, via the amended
characterization applied at a concrete row. -/
theorem c1_witness : sampleTrip 10799 ∈ validity_filter [sampleTrip 10799] :=
  (c1_validity_filter_inclusive_bounds [sampleTrip 10799] (sampleTrip 10799)).mpr
    ⟨by decide, by decide, ⟨10799, by decide, by decide, by decide⟩, by decide⟩

/-! ### Claim C3 -/

/-- C3 counterexample: 14:30:00 on the epoch day (t = 52200) rounds to 14:00
(t = 50400), not to the claimed 15:00 (t = 54000). -/
theorem c3_counterexample : round_h 52200 = 50400 ∧ (50400 : ℕ) ≠ 54000 := by
  decide

/-- C3 (amended): dt.round('h') rounds a start timestamp to the nearest hour,
and an exact half-hour tie is resolved to the even-numbered hour (pandas
round-half-to-even), not upward: the result is a whole hour within 1800
seconds of t, strictly nearest when t is not an exact half hour, and at an
exact half hour the chosen hour is even (divisible by 7200 seconds). -/
theorem c3_round_h_half_even (t : ℕ) :
    round_h t % 3600 = 0 ∧
    (round_h t ≤ t + 1800 ∧ t ≤ round_h t + 1800) ∧
    (t % 3600 ≠ 1800 → round_h t < t + 1800 ∧ t < round_h t + 1800) ∧
    (t % 3600 = 1800 → round_h t % 7200 = 0) := by
  unfold round_h
  have hdm := Nat.div_add_mod t 3600
  have hlt : t % 3600 < 3600 := Nat.mod_lt _ (by norm_num)
  split_ifs with h1 h2 h3 <;> refine ⟨by omega, ⟨by omega, by omega⟩, by omega, by omega⟩

/-- Witness for C3: the half-hour timestamp 52200 lands on an even hour. -/
theorem c3_witness : 52200 % 3600 = 1800 ∧ round_h 52200 % 7200 = 0 :=
  ⟨by decide, (c3_round_h_half_even 52200).2.2.2 (by decide)⟩

/-! ### Claim C5 -/

/-- C5: imputation only fills null station attribute cells from the registry
maps and never overwrites a present value: it is idempotent, and a row whose
six station attributes are all present is left unchanged. -/
theorem c5_impute_idempotent (mn : ℚ → Option String) (mla mlo : ℚ → Option ℚ)
    (r : RawTrip) :
    impute mn mla mlo (impute mn mla mlo r) = impute mn mla mlo r ∧
    (station_attrs_present r → impute mn mla mlo r = r) := by
  obtain ⟨rid, sa, ea, si, ei, sn, sla, slg, en, ela, elg⟩ := r
  constructor
  · simp [impute, fillna_fillna]
  · intro hp
    unfold station_attrs_present at hp
    obtain ⟨h1, h2, h3, h4, h5, h6⟩ := hp
    obtain ⟨v1, hv1⟩ := Option.isSome_iff_exists.mp h1
    obtain ⟨v2, hv2⟩ := Option.isSome_iff_exists.mp h2
    obtain ⟨v3, hv3⟩ := Option.isSome_iff_exists.mp h3
    obtain ⟨v4, hv4⟩ := Option.isSome_iff_exists.mp h4
    obtain ⟨v5, hv5⟩ := Option.isSome_iff_exists.mp h5
    obtain ⟨v6, hv6⟩ := Option.isSome_iff_exists.mp h6
    simp only at hv1 hv2 hv3 hv4 hv5 hv6
    subst hv1 hv2 hv3 hv4 hv5 hv6
    simp [impute, fillna]

/-- Witness for C5: the fully-attributed sample row is unchanged by
imputation against empty registry maps. -/
theorem c5_witness :
    station_attrs_present rFull ∧
    impute (fun _ => none) (fun _ => none) (fun _ => none) rFull = rFull :=
  ⟨by constructor <;> simp [rFull],
   (c5_impute_idempotent (fun _ => none) (fun _ => none) (fun _ => none) rFull).2
     (by constructor <;> simp [rFull])⟩

/-! ### Helper lemmas for the registry claims -/

theorem mem_dedupFirst : ∀ (m seen : List ℚ) (x : ℚ),
    x ∈ dedupFirst m seen ↔ (x ∈ m ∧ x ∉ seen) := by
  intro m
  induction m with
  | nil => intro seen x; simp [dedupFirst]
  | cons y ys ih =>
    intro seen x
    unfold dedupFirst
    split_ifs with hy
    · rw [ih]
      simp only [List.mem_cons]
      constructor
      · rintro ⟨hx, hs⟩
        exact ⟨Or.inr hx, hs⟩
      · rintro ⟨hx | hx, hs⟩
        · cases hx; exact absurd hy hs
        · exact ⟨hx, hs⟩
    · rw [List.mem_cons, ih]
      simp only [List.mem_cons, not_or]
      constructor
      · rintro (rfl | ⟨hx, hxy, hs⟩)
        · exact ⟨Or.inl rfl, hy⟩
        · exact ⟨Or.inr hx, hs⟩
      · rintro ⟨hx | hx, hs⟩
        · exact Or.inl hx
        · by_cases hxy : x = y
          · exact Or.inl hxy
          · exact Or.inr ⟨hx, hxy, hs⟩

theorem find?_id_eq {s : List ℚ} {i : ℚ} (h : i ∈ s) :
    s.find? (fun j => decide (j = i)) = some i := by
  induction s with
  | nil => simp at h
  | cons x t ih =>
    by_cases hx : x = i
    · subst hx
      simp [List.find?_cons]
    · have hd : decide (x = i) = false := by simp [hx]
      rw [List.find?_cons, hd]
      rcases List.mem_cons.mp h with rfl | h2
      · exact absurd rfl hx
      · exact ih h2

theorem find?_byId_map_mk (s : List ℚ) (f : ℚ → StationObs)
    (hf : ∀ j, (f j).station_id = j) (i : ℚ) :
    (s.map f).find? (fun r => decide (r.station_id = i)) =
      (s.find? (fun j => decide (j = i))).map f := by
  induction s with
  | nil => rfl
  | cons x t ih =>
    simp only [List.map_cons, List.find?_cons, hf]
    by_cases hx : x = i
    · simp [hx]
    · simp [hx, ih]

theorem filter_eq_cons_of_find? {α : Type} {p : α → Bool} :
    ∀ {l : List α} {a : α}, l.find? p = some a → ∃ t, l.filter p = a :: t := by
  intro l
  induction l with
  | nil => intro a h; simp at h
  | cons x t ih =>
    intro a h
    rw [List.find?_cons] at h
    cases hpx : p x
    · rw [hpx] at h
      obtain ⟨t2, ht⟩ := ih h
      exact ⟨t2, by simp [List.filter_cons, hpx, ht]⟩
    · rw [hpx] at h
      simp only [Option.some.injEq] at h
      subst h
      exact ⟨t.filter p, by simp [List.filter_cons, hpx]⟩

/-! ### Claim C2 -/

/-- C2 counterexample: with station 1 first observed with a null name and
later with name "A", the global pass resolves name "A" but latitude 10 —
mixing attributes of two different records — while taking the first whole
record would keep the null name.  The two resolutions differ. -/
theorem c2_counterexample :
    groupby_first [obsA, obsB] = [⟨1, some "A", some 10, some 20⟩] ∧
    groupby_firstRecord [obsA, obsB] = [obsA] ∧
    groupby_first [obsA, obsB] ≠ groupby_firstRecord [obsA, obsB] := by
  refine ⟨?_, ?_, ?_⟩ <;> decide

/-- C2 (amended): in the global pass, the resolved record for a station id
takes, independently for each of name, lat and lng, the first non-null value
among that id's records in accumulation order (pandas GroupBy.first skips
nulls per column), so the attributes may come from different records; the
result equals the first whole record exactly when that first record already
has all three attributes non-null. -/
theorem c2_groupby_first_per_column (l : List StationObs) (i : ℚ)
    (h : ∃ r ∈ l, r.station_id = i) :
    ∃ rec, (groupby_first l).find? (fun r => decide (r.station_id = i)) = some rec ∧
      rec.station_id = i ∧
      rec.station_name =
        (l.filter (fun r => decide (r.station_id = i))).findSome? (·.station_name) ∧
      rec.lat = (l.filter (fun r => decide (r.station_id = i))).findSome? (·.lat) ∧
      rec.lng = (l.filter (fun r => decide (r.station_id = i))).findSome? (·.lng) ∧
      (∀ first, l.find? (fun r => decide (r.station_id = i)) = some first →
        first.station_name.isSome → first.lat.isSome → first.lng.isSome →
        rec = first) := by
  obtain ⟨r0, hr0, hid⟩ := h
  have hmem0 : i ∈ l.map (·.station_id) := List.mem_map.mpr ⟨r0, hr0, hid⟩
  have hmem1 : i ∈ dedupFirst (l.map (·.station_id)) [] :=
    (mem_dedupFirst _ _ _).mpr ⟨hmem0, by simp⟩
  have hmem2 : i ∈ List.insertionSort (fun a b : ℚ => a ≤ b)
      (dedupFirst (l.map (·.station_id)) []) :=
    (List.mem_insertionSort _).mpr hmem1
  refine ⟨{ station_id := i
            station_name :=
              (l.filter (fun r => decide (r.station_id = i))).findSome? (·.station_name)
            lat := (l.filter (fun r => decide (r.station_id = i))).findSome? (·.lat)
            lng := (l.filter (fun r => decide (r.station_id = i))).findSome? (·.lng) },
          ?_, rfl, rfl, rfl, rfl, ?_⟩
  · unfold groupby_first
    rw [find?_byId_map_mk _ _ (fun j => rfl) i, find?_id_eq hmem2]
    rfl
  · intro first hfind hn hla hlg
    obtain ⟨n1, hn1⟩ := Option.isSome_iff_exists.mp hn
    obtain ⟨a1, ha1⟩ := Option.isSome_iff_exists.mp hla
    obtain ⟨g1, hg1⟩ := Option.isSome_iff_exists.mp hlg
    have hfid : first.station_id = i := by simpa using List.find?_some hfind
    obtain ⟨t, hfilter⟩ := filter_eq_cons_of_find? hfind
    rw [hfilter]
    cases first
    simp_all [List.findSome?_cons]

/-- Witness for C2: the amended characterization applied to the two-record
sample, station id 1. -/
theorem c2_witness :
    (∃ r ∈ [obsA, obsB], r.station_id = 1) ∧
    (∃ rec, (groupby_first [obsA, obsB]).find?
        (fun r => decide (r.station_id = 1)) = some rec ∧
      rec.station_id = 1 ∧
      rec.station_name =
        ([obsA, obsB].filter (fun r => decide (r.station_id = 1))).findSome? (·.station_name) ∧
      rec.lat = ([obsA, obsB].filter (fun r => decide (r.station_id = 1))).findSome? (·.lat) ∧
      rec.lng = ([obsA, obsB].filter (fun r => decide (r.station_id = 1))).findSome? (·.lng) ∧
      (∀ first, [obsA, obsB].find? (fun r => decide (r.station_id = 1)) = some first →
        first.station_name.isSome → first.lat.isSome → first.lng.isSome →
        rec = first)) :=
  ⟨⟨obsA, by simp, rfl⟩,
   c2_groupby_first_per_column [obsA, obsB] 1 ⟨obsA, by simp, rfl⟩⟩

/-! ### Claim C4 -/

theorem find?_drop_duplicates :
    ∀ (m : List StationObs) (seen : List ℚ) (i : ℚ), i ∉ seen →
      (drop_duplicates_by_id m seen).find? (fun r => decide (r.station_id = i)) =
        m.find? (fun r => decide (r.station_id = i)) := by
  intro m
  induction m with
  | nil => intro seen i _; rfl
  | cons r rs ih =>
    intro seen i hi
    unfold drop_duplicates_by_id
    split_ifs with hr
    · have hne : r.station_id ≠ i := fun h => hi (h ▸ hr)
      have hd : decide (r.station_id = i) = false := by simp [hne]
      rw [List.find?_cons, hd]
      exact ih seen i hi
    · rw [List.find?_cons, List.find?_cons]
      cases hd : decide (r.station_id = i)
      · have hne : r.station_id ≠ i := by simpa using hd
        exact ih _ i (by
          simp only [List.mem_cons, not_or]
          exact ⟨fun h => hne h.symm, hi⟩)
      · rfl

theorem sorted_find?_min {α : Type} {rel : α → α → Prop} {p : α → Bool} :
    ∀ {s : List α}, List.Sorted rel s → ∀ {a : α}, s.find? p = some a →
      ∀ y ∈ s, p y = true → rel a y ∨ a = y := by
  intro s
  induction s with
  | nil => intro _ a h; simp at h
  | cons x t ih =>
    intro hs a hfind y hy hpy
    rw [List.find?_cons] at hfind
    cases hpx : p x
    · rw [hpx] at hfind
      rcases List.mem_cons.mp hy with rfl | hyt
      · rw [hpy] at hpx; cases hpx
      · exact ih hs.of_cons hfind y hyt hpy
    · rw [hpx] at hfind
      simp only [Option.some.injEq] at hfind
      subst hfind
      rcases List.mem_cons.mp hy with rfl | hyt
      · exact Or.inr rfl
      · exact Or.inl (List.rel_of_sorted_cons hs y hyt)

theorem nameKeyLe_refl (n : Option String) : nameKeyLe n n = true := by
  cases n <;> simp [nameKeyLe]

/-- C4: for any station id, the per-source deduplication keeps exactly the
first row of the deterministically name-sorted list bearing that id (sorted
ascending by name, null names last), an observation of the input whose name
is minimal in that order among all of the id's observations within the
source; the result is a pure function of the input list, hence deterministic
for a fixed enumeration order. -/
theorem c4_per_source_first_by_name (l : List StationObs) (i : ℚ) (rec : StationObs)
    (h : (per_source_stations l).find? (fun r => decide (r.station_id = i)) = some rec) :
    (sort_by_name l).find? (fun r => decide (r.station_id = i)) = some rec ∧
    rec.station_id = i ∧ rec ∈ l ∧
    ∀ y ∈ l, y.station_id = i → nameKeyLe rec.station_name y.station_name = true := by
  unfold per_source_stations at h
  rw [find?_drop_duplicates _ _ _ (by simp)] at h
  refine ⟨h, by simpa using List.find?_some h, ?_, ?_⟩
  · have hmem := List.mem_of_find?_eq_some h
    unfold sort_by_name at hmem
    exact (List.mem_insertionSort _).mp hmem
  · intro y hy hyid
    have hsorted : List.Sorted nameLe (sort_by_name l) :=
      List.sorted_insertionSort nameLe l
    have hy2 : y ∈ sort_by_name l := by
      unfold sort_by_name
      exact (List.mem_insertionSort _).mpr hy
    have hpy : (fun r => decide (r.station_id = i)) y = true := by simp [hyid]
    rcases sorted_find?_min hsorted h y hy2 hpy with hrel | rfl
    · exact hrel
    · exact nameKeyLe_refl _

/-- Witness for C4: station 1 is observed first with a null name and then with
name "A"; the dedup keeps the named observation, which sorts first (null names
sort last). -/
theorem c4_witness :
    (per_source_stations [obsA, obsNameA]).find?
      (fun r => decide (r.station_id = 1)) = some obsNameA ∧
    nameKeyLe obsNameA.station_name obsA.station_name = true :=
  ⟨by decide,
   (c4_per_source_first_by_name [obsA, obsNameA] 1 obsNameA (by decide)).2.2.2
     obsA (by decide) (by decide)⟩

/-! ### Helper lemmas for the enrichment joins -/

theorem key_unique {α β : Type} :
    ∀ (l : List (α × β)), (l.map Prod.fst).Nodup →
      ∀ p q : α × β, p ∈ l → q ∈ l → p.1 = q.1 → p = q := by
  intro l
  induction l with
  | nil => intro _ p q hp; simp at hp
  | cons a t ih =>
    intro h p q hp hq hk
    rw [List.map_cons, List.nodup_cons] at h
    rcases List.mem_cons.mp hp with rfl | hpt
    · rcases List.mem_cons.mp hq with rfl | hqt
      · rfl
      · exfalso
        have : p.1 ∈ t.map Prod.fst := by
          rw [hk]; exact List.mem_map.mpr ⟨q, hqt, rfl⟩
        exact h.1 this
    · rcases List.mem_cons.mp hq with rfl | hqt
      · exfalso
        have : q.1 ∈ t.map Prod.fst := by
          rw [← hk]; exact List.mem_map.mpr ⟨p, hpt, rfl⟩
        exact h.1 this
      · exact ih h.2 p q hpt hqt hk

theorem length_filter_key_le_one {α β : Type} [DecidableEq α] :
    ∀ (l : List (α × β)), (l.map Prod.fst).Nodup → ∀ k : α,
      (l.filter (fun p => decide (p.1 = k))).length ≤ 1 := by
  intro l
  induction l with
  | nil => intro _ k; simp
  | cons a t ih =>
    intro h k
    rw [List.map_cons, List.nodup_cons] at h
    by_cases hak : a.1 = k
    · have hnil : t.filter (fun p => decide (p.1 = k)) = [] := by
        rw [List.filter_eq_nil_iff]
        intro p hp hpk
        have hpk2 : p.1 = k := of_decide_eq_true hpk
        exact h.1 (List.mem_map.mpr ⟨p, hp, by rw [hpk2, hak]⟩)
      simp [List.filter_cons, hak, hnil]
    · simpa [List.filter_cons, hak] using ih h.2 k

theorem if_empty_map_length {α β : Type} (ms : List α) (x : β) (f : α → β)
    (h : ms.length ≤ 1) :
    (if ms.isEmpty then [x] else ms.map f).length = 1 := by
  cases ms with
  | nil => simp
  | cons a t =>
    cases t with
    | nil => simp
    | cons b t2 => simp at h

theorem merge_weather_length (trips : List CleanTrip) (wt : List (ℕ × WeatherRow))
    (hw : (wt.map Prod.fst).Nodup) :
    (merge_weather trips wt).length = trips.length := by
  induction trips with
  | nil => rfl
  | cons tr ts ih =>
    unfold merge_weather at *
    rw [List.flatMap_cons, List.length_append, ih, List.length_cons]
    have h1 : (weather_matches wt tr).length ≤ 1 :=
      length_filter_key_le_one wt hw _
    rw [if_empty_map_length _ _ _ h1]
    omega

theorem merge_sun_length (rows : List TripW) (sun : List (ℕ × ℕ × ℕ))
    (hs : (sun.map Prod.fst).Nodup) :
    (merge_sun rows sun).length = rows.length := by
  induction rows with
  | nil => rfl
  | cons row rs ih =>
    unfold merge_sun at *
    rw [List.flatMap_cons, List.length_append, ih, List.length_cons]
    have h1 : (sun_matches sun row).length ≤ 1 :=
      length_filter_key_le_one sun hs _
    rw [if_empty_map_length _ _ _ h1]
    omega

theorem mem_merge_weather_self {trips : List CleanTrip} {wt : List (ℕ × WeatherRow)}
    {tr : CleanTrip} (htr : tr ∈ trips) :
    ∃ w ∈ merge_weather trips wt, w.trip = tr ∧
      ((∀ p ∈ wt, p.1 ≠ round_h tr.started_at) → w.weather = none) := by
  unfold merge_weather
  cases hE : (weather_matches wt tr).isEmpty
  · obtain ⟨p, t, hcons⟩ : ∃ p t, weather_matches wt tr = p :: t := by
      cases hc : weather_matches wt tr with
      | nil => rw [hc] at hE; simp at hE
      | cons p t => exact ⟨p, t, rfl⟩
    refine ⟨⟨tr, some p.2⟩, ?_, rfl, ?_⟩
    · refine List.mem_flatMap.mpr ⟨tr, htr, ?_⟩
      rw [if_neg (by simp [hE])]
      rw [hcons]
      exact List.mem_map.mpr ⟨p, List.mem_cons_self _ _, rfl⟩
    · intro hno
      exfalso
      have hp : p ∈ weather_matches wt tr := by
        rw [hcons]; exact List.mem_cons_self _ _
      unfold weather_matches at hp
      rw [List.mem_filter] at hp
      exact hno p hp.1 (of_decide_eq_true hp.2)
  · refine ⟨⟨tr, none⟩, ?_, rfl, fun _ => rfl⟩
    refine List.mem_flatMap.mpr ⟨tr, htr, ?_⟩
    rw [if_pos hE]
    exact List.mem_cons_self _ _

theorem mem_merge_sun_self {rows : List TripW} {sun : List (ℕ × ℕ × ℕ)}
    {row : TripW} (hrow : row ∈ rows) :
    ∃ m ∈ merge_sun rows sun, m.trip = row.trip ∧ m.weather = row.weather := by
  unfold merge_sun
  cases hE : (sun_matches sun row).isEmpty
  · obtain ⟨p, t, hcons⟩ : ∃ p t, sun_matches sun row = p :: t := by
      cases hc : sun_matches sun row with
      | nil => rw [hc] at hE; simp at hE
      | cons p t => exact ⟨p, t, rfl⟩
    refine ⟨⟨row.trip, row.weather, some p.2.1, some p.2.2⟩, ?_, rfl, rfl⟩
    refine List.mem_flatMap.mpr ⟨row, hrow, ?_⟩
    rw [if_neg (by simp [hE])]
    rw [hcons]
    exact List.mem_map.mpr ⟨p, List.mem_cons_self _ _, rfl⟩
  · refine ⟨⟨row.trip, row.weather, none, none⟩, ?_, rfl, rfl⟩
    refine List.mem_flatMap.mpr ⟨row, hrow, ?_⟩
    rw [if_pos hE]
    exact List.mem_cons_self _ _

theorem mem_merge_sun_cases {rows : List TripW} {sun : List (ℕ × ℕ × ℕ)}
    {m : TripWS} (h : m ∈ merge_sun rows sun) :
    (m.sunrise = none ∧ m.sunset = none ∧
      ∀ p ∈ sun, p.1 ≠ date_of m.trip.started_at) ∨
    (∃ p ∈ sun, p.1 = date_of m.trip.started_at ∧
      m.sunrise = some p.2.1 ∧ m.sunset = some p.2.2) := by
  unfold merge_sun at h
  obtain ⟨row, hrow, hm⟩ := List.mem_flatMap.mp h
  cases hE : (sun_matches sun row).isEmpty
  · rw [if_neg (by simp [hE])] at hm
    obtain ⟨p, hp, hpe⟩ := List.mem_map.mp hm
    subst hpe
    unfold sun_matches at hp
    rw [List.mem_filter] at hp
    right
    exact ⟨p, hp.1, of_decide_eq_true hp.2, rfl, rfl⟩
  · rw [if_pos hE] at hm
    have hmeq : m = ⟨row.trip, row.weather, none, none⟩ := by simpa using hm
    subst hmeq
    left
    refine ⟨rfl, rfl, ?_⟩
    intro p hp hpk
    have hnil : sun_matches sun row = [] := List.isEmpty_iff.mp hE
    unfold sun_matches at hnil
    rw [List.filter_eq_nil_iff] at hnil
    exact hnil p hp (by simpa using hpk)

theorem is_day_int_some (t r s : ℕ) :
    is_day_int t (some r) (some s) = 1 ↔ (r ≤ t ∧ t ≤ s) := by
  simp only [is_day_int]
  split_ifs with h
  · simp [h]
  · simp [h]

theorem is_day_int_cases (t : ℕ) (a b : Option ℕ) :
    is_day_int t a b = 0 ∨ is_day_int t a b = 1 := by
  unfold is_day_int
  rcases a with _ | r <;> rcases b with _ | s <;> simp
  omega

/-! ### Claim C6 -/

/-- C6: both enrichment joins are left joins: when the weather and solar
tables have unique keys (an invariant of their construction), the number of
enriched rows equals the number of input trips; every input trip appears in
the output, and a trip whose rounded hour has no weather observation carries
null weather fields. -/
theorem c6_left_join_counts (trips : List CleanTrip) (wt : List (ℕ × WeatherRow))
    (sun : List (ℕ × ℕ × ℕ))
    (hw : (wt.map Prod.fst).Nodup) (hs : (sun.map Prod.fst).Nodup) :
    (enrich_month trips wt sun).length = trips.length ∧
    ∀ tr ∈ trips, ∃ e ∈ enrich_month trips wt sun, e.trip = tr ∧
      ((∀ p ∈ wt, p.1 ≠ round_h tr.started_at) → e.weather = none) := by
  constructor
  · unfold enrich_month add_flags
    rw [List.length_map, merge_sun_length _ _ hs, merge_weather_length _ _ hw]
  · intro tr htr
    obtain ⟨w, hw1, hw2, hw3⟩ := @mem_merge_weather_self trips wt tr htr
    obtain ⟨m, hm1, hm2, hm3⟩ :=
      @mem_merge_sun_self (merge_weather trips wt) sun w hw1
    refine ⟨⟨m.trip, m.weather, is_day_int m.trip.started_at m.sunrise m.sunset,
             is_weekend_int m.trip.started_at⟩, ?_, ?_, ?_⟩
    · unfold enrich_month add_flags
      exact List.mem_map.mpr ⟨m, hm1, rfl⟩
    · show m.trip = tr
      rw [hm2, hw2]
    · intro hno
      show m.weather = none
      rw [hm3]
      exact hw3 hno

/-- Witness for C6: a single trip joined against empty weather and solar
tables is still emitted, keeping the row count. -/
theorem c6_witness :
    ((([] : List (ℕ × WeatherRow)).map Prod.fst).Nodup) ∧
    (enrich_month [tripAtSunrise] [] []).length = 1 :=
  ⟨by decide, (c6_left_join_counts [tripAtSunrise] [] [] (by decide) (by decide)).1⟩

/-! ### Claim C7 -/

/-- C7: for a trip whose start date has a solar entry (d, sunrise, sunset) in
a unique-keyed solar table, the enriched row has is_day = 1 iff
sunrise ≤ started_at ≤ sunset, inclusive at both ends. -/
theorem c7_is_day_inclusive (trips : List CleanTrip) (wt : List (ℕ × WeatherRow))
    (sun : List (ℕ × ℕ × ℕ)) (hs : (sun.map Prod.fst).Nodup)
    (d r s : ℕ) (hmem : (d, r, s) ∈ sun) :
    ∀ e ∈ enrich_month trips wt sun, date_of e.trip.started_at = d →
      (e.is_day = 1 ↔ (r ≤ e.trip.started_at ∧ e.trip.started_at ≤ s)) := by
  intro e he hdate
  unfold enrich_month add_flags at he
  obtain ⟨m, hm, hme⟩ := List.mem_map.mp he
  subst hme
  simp only at hdate ⊢
  rcases mem_merge_sun_cases hm with ⟨h1, h2, h3⟩ | ⟨p, hp, hk, hsr, hss⟩
  · exact absurd hdate.symm (h3 (d, r, s) hmem)
  · have hpd : p = (d, r, s) := by
      refine key_unique sun hs p (d, r, s) hp hmem ?_
      rw [hk]
      exact hdate
    subst hpd
    rw [hsr, hss]
    exact is_day_int_some m.trip.started_at r s

/-- Witness for C7: a trip starting exactly at the sample sunrise is
classified is_day = 1. -/
theorem c7_witness :
    ((⟨tripAtSunrise, none, 1, 0⟩ : EnrichedTrip) ∈
      enrich_month [tripAtSunrise] [] sunSample) ∧
    (⟨tripAtSunrise, none, 1, 0⟩ : EnrichedTrip).is_day = 1 :=
  ⟨by decide,
   (c7_is_day_inclusive [tripAtSunrise] [] sunSample (by decide) 0 21600 75600
      (by decide) ⟨tripAtSunrise, none, 1, 0⟩ (by decide) (by decide)).mpr
     ⟨by decide, by decide⟩⟩

/-! ### Claim C9 -/

/-- C9: the enriched is_day flag is always exactly 0 or 1, never null, and a
trip whose start date has no solar entry gets is_day = 0 (the comparisons
against the missing sunrise and sunset are both false). -/
theorem c9_is_day_total (trips : List CleanTrip) (wt : List (ℕ × WeatherRow))
    (sun : List (ℕ × ℕ × ℕ)) :
    ∀ e ∈ enrich_month trips wt sun,
      (e.is_day = 0 ∨ e.is_day = 1) ∧
      ((∀ p ∈ sun, p.1 ≠ date_of e.trip.started_at) → e.is_day = 0) := by
  intro e he
  unfold enrich_month add_flags at he
  obtain ⟨m, hm, hme⟩ := List.mem_map.mp he
  subst hme
  refine ⟨is_day_int_cases _ _ _, ?_⟩
  intro hno
  simp only at hno
  rcases mem_merge_sun_cases hm with ⟨h1, h2, h3⟩ | ⟨p, hp, hk, hsr, hss⟩
  · show is_day_int m.trip.started_at m.sunrise m.sunset = 0
    rw [h1, h2]
    rfl
  · exact absurd hk (hno p hp)

/-- Witness for C9: with an empty solar table the single enriched trip is
emitted with is_day = 0. -/
theorem c9_witness :
    ((⟨tripAtSunrise, none, 0, 0⟩ : EnrichedTrip) ∈ enrich_month [tripAtSunrise] [] []) ∧
    (⟨tripAtSunrise, none, 0, 0⟩ : EnrichedTrip).is_day = 0 :=
  ⟨by decide,
   (c9_is_day_total [tripAtSunrise] [] [] ⟨tripAtSunrise, none, 0, 0⟩
      (by decide)).2 (by decide)⟩

/-! ### Helper lemmas for the signature claims -/

theorem foldl_min_le_init : ∀ (l : List ℚ) (a : ℚ), l.foldl min a ≤ a := by
  intro l
  induction l with
  | nil => intro a; exact le_refl a
  | cons x t ih =>
    intro a
    exact le_trans (ih (min a x)) (min_le_left a x)

theorem foldl_min_le_mem : ∀ (l : List ℚ) (a : ℚ), ∀ x ∈ l, l.foldl min a ≤ x := by
  intro l
  induction l with
  | nil => intro a x hx; simp at hx
  | cons z t ih =>
    intro a x hx
    rcases List.mem_cons.mp hx with rfl | hxt
    · exact le_trans (foldl_min_le_init t (min a x)) (min_le_right a x)
    · exact ih (min a z) x hxt

theorem foldl_min_mem : ∀ (l : List ℚ) (a : ℚ), l.foldl min a = a ∨ l.foldl min a ∈ l := by
  intro l
  induction l with
  | nil => intro a; exact Or.inl rfl
  | cons x t ih =>
    intro a
    rcases ih (min a x) with h | h
    · rcases min_choice a x with hc | hc
      · exact Or.inl (by rw [List.foldl_cons, h, hc])
      · exact Or.inr (by rw [List.foldl_cons, h, hc]; exact List.mem_cons_self _ _)
    · exact Or.inr (List.mem_cons_of_mem _ h)

theorem init_le_foldl_max : ∀ (l : List ℚ) (a : ℚ), a ≤ l.foldl max a := by
  intro l
  induction l with
  | nil => intro a; exact le_refl a
  | cons x t ih =>
    intro a
    exact le_trans (le_max_left a x) (ih (max a x))

theorem mem_le_foldl_max : ∀ (l : List ℚ) (a : ℚ), ∀ x ∈ l, x ≤ l.foldl max a := by
  intro l
  induction l with
  | nil => intro a x hx; simp at hx
  | cons z t ih =>
    intro a x hx
    rcases List.mem_cons.mp hx with rfl | hxt
    · exact le_trans (le_max_right a x) (init_le_foldl_max t (max a x))
    · exact ih (max a z) x hxt

theorem foldl_max_mem : ∀ (l : List ℚ) (a : ℚ), l.foldl max a = a ∨ l.foldl max a ∈ l := by
  intro l
  induction l with
  | nil => intro a; exact Or.inl rfl
  | cons x t ih =>
    intro a
    rcases ih (max a x) with h | h
    · rcases max_choice a x with hc | hc
      · exact Or.inl (by rw [List.foldl_cons, h, hc])
      · exact Or.inr (by rw [List.foldl_cons, h, hc]; exact List.mem_cons_self _ _)
    · exact Or.inr (List.mem_cons_of_mem _ h)

theorem list_min_le_mem (xs : List ℚ) : ∀ x ∈ xs, list_min xs ≤ x := by
  cases xs with
  | nil => intro x hx; simp at hx
  | cons a t =>
    intro x hx
    rcases List.mem_cons.mp hx with rfl | hxt
    · exact foldl_min_le_init t x
    · exact foldl_min_le_mem t a x hxt

theorem list_min_mem (xs : List ℚ) (h : xs ≠ []) : list_min xs ∈ xs := by
  cases xs with
  | nil => exact absurd rfl h
  | cons a t =>
    rcases foldl_min_mem t a with h1 | h1
    · rw [list_min, h1]; exact List.mem_cons_self _ _
    · rw [list_min]; exact List.mem_cons_of_mem _ h1

theorem le_list_max (xs : List ℚ) : ∀ x ∈ xs, x ≤ list_max xs := by
  cases xs with
  | nil => intro x hx; simp at hx
  | cons a t =>
    intro x hx
    rcases List.mem_cons.mp hx with rfl | hxt
    · exact init_le_foldl_max t x
    · exact mem_le_foldl_max t a x hxt

theorem list_max_mem (xs : List ℚ) (h : xs ≠ []) : list_max xs ∈ xs := by
  cases xs with
  | nil => exact absurd rfl h
  | cons a t =>
    rcases foldl_max_mem t a with h1 | h1
    · rw [list_max, h1]; exact List.mem_cons_self _ _
    · rw [list_max]; exact List.mem_cons_of_mem _ h1

theorem minmax_normalize_getElem (xs : List ℚ) (j : ℕ) (x : ℚ)
    (hj : xs[j]? = some x) :
    (minmax_normalize xs)[j]? =
      some (if list_max xs = list_min xs then x - list_min xs
            else (x - list_min xs) / (list_max xs - list_min xs)) := by
  simp only [minmax_normalize, List.getElem?_map, hj]
  rfl

theorem minmax_normalize_mem_bounds (xs : List ℚ) (y : ℚ)
    (hy : y ∈ minmax_normalize xs) : 0 ≤ y ∧ y ≤ 1 := by
  simp only [minmax_normalize] at hy
  obtain ⟨x, hx, hxy⟩ := List.mem_map.mp hy
  subst hxy
  have h1 : list_min xs ≤ x := list_min_le_mem xs x hx
  have h2 : x ≤ list_max xs := le_list_max xs x hx
  by_cases he : list_max xs = list_min xs
  · rw [if_pos he]
    constructor
    · linarith
    · linarith
  · rw [if_neg he]
    have hlt : list_min xs < list_max xs :=
      lt_of_le_of_ne (le_trans h1 h2) (Ne.symm he)
    constructor
    · exact div_nonneg (by linarith) (by linarith)
    · rw [div_le_one (by linarith)]
      linarith

theorem minmax_normalize_const (xs : List ℚ) (k : ℚ) (h : ∀ x ∈ xs, x = k) :
    ∀ y ∈ minmax_normalize xs, y = 0 := by
  intro y hy
  simp only [minmax_normalize] at hy
  obtain ⟨x, hx, hxy⟩ := List.mem_map.mp hy
  have hnil : xs ≠ [] := by
    intro hc
    rw [hc] at hx
    simp at hx
  have hmn : list_min xs = k := h _ (list_min_mem xs hnil)
  have hmx : list_max xs = k := h _ (list_max_mem xs hnil)
  rw [← hxy, if_pos (by rw [hmx, hmn]), h x hx, hmn]
  ring

/-! ### Claim C8 -/

/-- C8: every signature row emitted for a partition has exactly 24 values and
equals the min-max normalization of the station's 24-hour count vector (with
hours of zero observed trips contributing 0); a station whose trips in the
partition all fall in one hour gets 1 at that hour and 0 at the other 23. -/
theorem c8_signature_rows (rows : List SigRow) (flag : ℕ) (s : ℚ) (v : List ℚ)
    (h : (s, v) ∈ generate_signatures rows flag) :
    v.length = 24 ∧
    v = minmax_normalize ((List.range 24).map
      (fun k => (count_for (sig_subset rows flag) s k : ℚ))) ∧
    (∀ h₀, h₀ < 24 → 0 < count_for (sig_subset rows flag) s h₀ →
      (∀ k, k < 24 → k ≠ h₀ → count_for (sig_subset rows flag) s k = 0) →
      (v[h₀]? = some 1 ∧ ∀ k, k < 24 → k ≠ h₀ → v[k]? = some 0)) := by
  unfold generate_signatures at h
  obtain ⟨s2, hs2, hpair⟩ := List.mem_map.mp h
  rw [Prod.mk.injEq] at hpair
  obtain ⟨rfl, rfl⟩ := hpair
  refine ⟨by simp [minmax_normalize], rfl, ?_⟩
  intro h₀ hlt hpos hzero
  have hcpos : (0:ℚ) < (count_for (sig_subset rows flag) s2 h₀ : ℚ) := by
    exact_mod_cast hpos
  have hcne : ((count_for (sig_subset rows flag) s2 h₀ : ℚ)) ≠ 0 :=
    ne_of_gt hcpos
  set xs := (List.range 24).map
    (fun k => (count_for (sig_subset rows flag) s2 k : ℚ)) with hxs
  have hmem_c : ((count_for (sig_subset rows flag) s2 h₀ : ℚ)) ∈ xs := by
    rw [hxs]
    exact List.mem_map.mpr ⟨h₀, List.mem_range.mpr hlt, rfl⟩
  have hmem_0 : (0:ℚ) ∈ xs := by
    rw [hxs]
    by_cases h0 : h₀ = 0
    · refine List.mem_map.mpr ⟨1, List.mem_range.mpr (by norm_num), ?_⟩
      rw [hzero 1 (by norm_num) (by omega)]
      simp
    · refine List.mem_map.mpr ⟨0, List.mem_range.mpr (by norm_num), ?_⟩
      rw [hzero 0 (by norm_num) (by omega)]
      simp
  have hall : ∀ x ∈ xs, x = 0 ∨ x = ((count_for (sig_subset rows flag) s2 h₀ : ℚ)) := by
    intro x hx
    rw [hxs] at hx
    obtain ⟨k, hk, hkx⟩ := List.mem_map.mp hx
    rw [← hkx]
    by_cases hkh : k = h₀
    · right; rw [hkh]
    · left
      rw [hzero k (List.mem_range.mp hk) hkh]
      simp
  have hne_nil : xs ≠ [] := by
    have hlen : xs.length = 24 := by simp [hxs]
    intro hc
    rw [hc] at hlen
    simp at hlen
  have hmn : list_min xs = 0 := by
    have h1 := list_min_mem xs hne_nil
    have h2 := list_min_le_mem xs 0 hmem_0
    rcases hall _ h1 with h3 | h3
    · exact h3
    · exfalso
      rw [h3] at h2
      exact absurd h2 (not_le.mpr hcpos)
  have hmx : list_max xs = ((count_for (sig_subset rows flag) s2 h₀ : ℚ)) := by
    have h1 := list_max_mem xs hne_nil
    have h2 := le_list_max xs _ hmem_c
    rcases hall _ h1 with h3 | h3
    · exfalso
      rw [h3] at h2
      exact absurd h2 (not_le.mpr hcpos)
    · exact h3
  constructor
  · have hx : xs[h₀]? = some ((count_for (sig_subset rows flag) s2 h₀ : ℚ)) := by
      rw [hxs, List.getElem?_map, List.getElem?_range hlt]
      rfl
    rw [minmax_normalize_getElem xs h₀ _ hx, hmn, hmx, if_neg hcne, sub_zero,
      div_self hcne]
  · intro k hk hkne
    have hx : xs[k]? = some ((count_for (sig_subset rows flag) s2 k : ℚ)) := by
      rw [hxs, List.getElem?_map, List.getElem?_range hk]
      rfl
    have hzk : ((count_for (sig_subset rows flag) s2 k : ℚ)) = 0 := by
      rw [hzero k hk hkne]
      simp
    rw [minmax_normalize_getElem xs k _ hx, hmn, hmx, if_neg hcne, hzk, sub_zero,
      sub_zero, zero_div]

set_option maxRecDepth 100000 in
/-- Witness for C8: a single weekday trip of station 1 at hour 8 produces a
24-entry signature with 1.0 at hour 8. -/
theorem c8_witness :
    ∃ v, ((1 : ℚ), v) ∈ generate_signatures [sigRow8] 0 ∧ v.length = 24 ∧
      v[8]? = some 1 :=
  ⟨minmax_normalize ((List.range 24).map
      (fun k => (count_for (sig_subset [sigRow8] 0) 1 k : ℚ))),
   List.mem_map.mpr ⟨1, by decide, rfl⟩,
   (c8_signature_rows [sigRow8] 0 1 _ (List.mem_map.mpr ⟨1, by decide, rfl⟩)).1,
   ((c8_signature_rows [sigRow8] 0 1 _ (List.mem_map.mpr ⟨1, by decide, rfl⟩)).2.2
      8 (by decide) (by decide) (by decide)).1⟩

/-! ### Claim C10 -/

/-- C10: a station whose 24-hour count vector is constant within a partition
is normalized to all zeros (sklearn replaces a zero range by 1 instead of
dividing by zero), and every emitted signature value lies in [0, 1]. -/
theorem c10_minmax_bounds (rows : List SigRow) (flag : ℕ) (s : ℚ) (v : List ℚ)
    (h : (s, v) ∈ generate_signatures rows flag) :
    ((∃ k₀ : ℚ, ∀ k, k < 24 → (count_for (sig_subset rows flag) s k : ℚ) = k₀) →
      ∀ y ∈ v, y = 0) ∧
    (∀ y ∈ v, 0 ≤ y ∧ y ≤ 1) := by
  unfold generate_signatures at h
  obtain ⟨s2, hs2, hpair⟩ := List.mem_map.mp h
  rw [Prod.mk.injEq] at hpair
  obtain ⟨rfl, rfl⟩ := hpair
  constructor
  · rintro ⟨k₀, hk⟩ y hy
    refine minmax_normalize_const _ k₀ ?_ y hy
    intro x hx
    obtain ⟨k, hkr, hkx⟩ := List.mem_map.mp hx
    rw [← hkx]
    exact hk k (List.mem_range.mp hkr)
  · intro y hy
    exact minmax_normalize_mem_bounds _ y hy

set_option maxRecDepth 100000 in
/-- Witness for C10: a station with exactly one trip in each of the 24 hours
(a constant count vector) is normalized to all zeros. -/
theorem c10_witness :
    ∃ v, ((1 : ℚ), v) ∈ generate_signatures sigRowsConst 0 ∧ ∀ y ∈ v, y = 0 :=
  ⟨minmax_normalize ((List.range 24).map
      (fun k => (count_for (sig_subset sigRowsConst 0) 1 k : ℚ))),
   List.mem_map.mpr ⟨1, by decide, rfl⟩,
   (c10_minmax_bounds sigRowsConst 0 1 _
      (List.mem_map.mpr ⟨1, by decide, rfl⟩)).1 ⟨1, by decide⟩⟩
